import Mathlib

/-!
Verification of the Area Assignment & Discrepancy Engine of the order-flow
board.  The definitions below are a shallow embedding of the demo-mode core
in `src/lib/api.ts` (effective-status resolution, the status-mapping pass,
manual moves with audit trail, area modes, and the flow-error classifier),
together with the justification gate of `MoveOrderDialog` in `App.tsx`.
TypeScript numbers that the code only compares are modelled as `Int`,
optional fields as `Option`, and the mutable demo module state as an
explicit `DemoState` record threaded through the operations.
-/

set_option maxRecDepth 4096

namespace OrderFlow

/-- The four pipeline areas (`Area` in `types.ts`). -/
inductive Area where
  | Orders
  | Warehouse
  | Production
  | Logistics
deriving DecidableEq, Repr

/-- How `current_area` was set (`source` in `types.ts`). -/
inductive Source where
  | system
  | manual
deriving DecidableEq, Repr

/-- `StatusMapping` from `types.ts` (the optional `row_key` is never read by
the core logic and is omitted). -/
structure StatusMapping where
  id : String
  system_status_value : String
  mapped_area : Area
  mapped_label : String
  sort_order : Int
  is_active : Bool
deriving DecidableEq, Repr

/-- `Order` from `types.ts`, restricted to the fields the core reads or
writes.  Optional TypeScript fields become `Option`s. -/
structure Order where
  Order : String
  Plant : String
  Material : String
  Material_description : String
  Start_date_sched : String
  Scheduled_finish_date : String
  Order_quantity : Int
  Delivered_quantity : Int
  System_Status : String
  User_Status : String
  current_area : Area
  has_changes : Option Bool
  changed_fields : Option (List String)
  source : Option Source
  sap_area : Option Area
  discrepancy : Option Bool
deriving DecidableEq, Repr

/-- `ErrorCategory` from `types.ts`. -/
inductive ErrorCategory where
  | E1_DISCREPANCY
  | E2_REGRESS
  | E3_MISSING
  | E4_INVALID
deriving DecidableEq, Repr

/-- `FlowError` from `types.ts` (the unused `last_upload_at` is omitted). -/
structure FlowError where
  order_id : String
  Order : String
  Material : String
  Plant : String
  category : ErrorCategory
  description : String
  current_area : Option Area
  sap_area : Option Area
  system_status : Option String
deriving DecidableEq, Repr

/-- One element of the demo `_moveAuditTrail` in `api.ts`
(`from`/`to` are renamed `fromArea`/`toArea` because `from` is reserved). -/
structure MoveAuditEntry where
  order_id : String
  fromArea : Area
  toArea : Area
  justification : Option String
  moved_at : String
  moved_by : String
deriving DecidableEq, Repr

/-- `FlowMoveRequest` from `types.ts`. -/
structure FlowMoveRequest where
  order_id : String
  target_area : Area
  justification : Option String
  moved_by : Option String
deriving DecidableEq, Repr

/-- `FlowMoveResult` from `types.ts`. -/
structure FlowMoveResult where
  order_id : String
  previous_area : Area
  current_area : Area
  source : Source
  moved_at : String
  moved_by : String
deriving DecidableEq, Repr

/-- The mutable demo-module state of `api.ts` that the core operations
touch: `_orders`, `_statusMappings` and `_moveAuditTrail`. -/
structure DemoState where
  orders : List Order
  statusMappings : List StatusMapping
  moveAuditTrail : List MoveAuditEntry
deriving DecidableEq, Repr

/-! ### Tokenisation

`getEffectiveStatus` starts with `systemStatus.trim().split(/\s+/).filter(Boolean)`,
i.e. the maximal non-whitespace runs of the string.  We embed that tokenizer
directly on the character list, which is what the regex split computes. -/

/-- Accumulator-passing tokenizer: splits a character list into its maximal
runs of non-whitespace characters (the JS `trim().split(/\s+/).filter(Boolean)`). -/
def tokenizeAux : List Char → List Char → List (List Char)
  | [], acc => if acc.isEmpty then [] else [acc.reverse]
  | c :: rest, acc =>
    if c.isWhitespace then
      if acc.isEmpty then tokenizeAux rest [] else acc.reverse :: tokenizeAux rest []
    else
      tokenizeAux rest (c :: acc)

/-- The non-empty whitespace-separated tokens of a status string. -/
def splitTokens (s : String) : List String :=
  (tokenizeAux s.data []).map String.mk

/-- JS `String.prototype.trim`: drop whitespace from both ends. -/
def strTrim (s : String) : String :=
  String.mk (((s.data.dropWhile Char.isWhitespace).reverse.dropWhile Char.isWhitespace).reverse)

/-- Lexicographic comparison of character lists, the order JS uses when
comparing strings with `<` / `>`. -/
def charListLt : List Char → List Char → Bool
  | [], [] => false
  | [], _ :: _ => true
  | _ :: _, [] => false
  | a :: as, b :: bs =>
    if a < b then true else if b < a then false else charListLt as bs

/-- JS string `a > b` (strict lexicographic greater-than). -/
def strGt (a b : String) : Bool :=
  charListLt b.data a.data

/-! ### Effective status resolution (`api.ts` lines 118–133) -/

/-- The per-token lookup inside `getEffectiveStatus`:
`mappings.find(s => s.system_status_value === token && s.is_active)`. -/
def findActive (mappings : List StatusMapping) (token : String) : Option StatusMapping :=
  mappings.find? fun s => s.system_status_value == token && s.is_active

/-- `getEffectiveStatus` from `api.ts`: scan the tokens left to right keeping
the active match with the strictly greatest `sort_order`. -/
def getEffectiveStatus (systemStatus : String) (mappings : List StatusMapping) :
    Option StatusMapping :=
  (splitTokens systemStatus).foldl
    (fun best token =>
      match findActive mappings token, best with
      | some m, none => some m
      | some m, some b => if m.sort_order > b.sort_order then some m else some b
      | none, acc => acc)
    none

/-- `deriveArea` from `api.ts`: the winning mapping's area, `Orders` if none. -/
def deriveArea (systemStatus : String) (mappings : List StatusMapping) : Area :=
  match getEffectiveStatus systemStatus mappings with
  | some eff => eff.mapped_area
  | none => Area.Orders

/-! ### The status-mapping pass (`updateStatusMappings`, `api.ts` lines 187–208)

The demo branch stores the new mapping table and recomputes every order:
this is the spec's `applyStatusMappings` pass. -/

/-- The per-order body of the `_orders.map` inside `updateStatusMappings`. -/
def applyOne (mappings : List StatusMapping) (o : Order) : Order :=
  let sapArea := deriveArea o.System_Status mappings
  let isManual : Bool := decide (o.source = some Source.manual)
  let discrepancy : Bool := isManual && decide (sapArea ≠ o.current_area)
  { o with
    sap_area := some sapArea
    discrepancy := some discrepancy
    current_area := if isManual then o.current_area else sapArea }

/-- The order-table effect of the demo branch of `updateStatusMappings`. -/
def updateStatusMappings (mappings : List StatusMapping) (orders : List Order) :
    List Order :=
  orders.map (applyOne mappings)

/-! ### Manual moves (`moveOrder`, `api.ts` lines 257–305) -/

/-- The record update applied to the matched order inside `moveOrder` and
`demoMoveOrder` (`sapArea` is derived from the order found at the matched
index, which is the order being updated). -/
def moveUpdate (sapArea : Area) (target : Area) (o : Order) : Order :=
  { o with
    current_area := target
    source := some Source.manual
    sap_area := some sapArea
    discrepancy := some (decide (sapArea ≠ target)) }

/-- Replace the first element satisfying `p` by its image under `f`, leaving
everything else in place.  This is exactly what
`_orders.map((o, i) => i === idx ? f(o) : o)` does when `idx` is the result
of `findIndex(p)`. -/
def updateFirst (p : Order → Bool) (f : Order → Order) : List Order → List Order
  | [] => []
  | o :: rest => if p o then f o :: rest else o :: updateFirst p f rest

/-- The demo branch of `moveOrder`: find the order, derive its SAP area
against the current mapping table, rewrite the order, append one audit
entry.  `now` stands for `new Date().toISOString()`. -/
def moveOrder (st : DemoState) (req : FlowMoveRequest) (now : String) :
    Except String (FlowMoveResult × DemoState) :=
  match st.orders.find? (fun o => o.Order == req.order_id) with
  | none => Except.error "Order not found"
  | some prev =>
    let sapArea := deriveArea prev.System_Status st.statusMappings
    let movedBy := req.moved_by.getD "current_user"
    let result : FlowMoveResult :=
      { order_id := req.order_id
        previous_area := prev.current_area
        current_area := req.target_area
        source := Source.manual
        moved_at := now
        moved_by := movedBy }
    let entry : MoveAuditEntry :=
      { order_id := req.order_id
        fromArea := prev.current_area
        toArea := req.target_area
        justification := req.justification
        moved_at := now
        moved_by := movedBy }
    Except.ok (result,
      { st with
        orders := updateFirst (fun o => o.Order == req.order_id)
          (moveUpdate sapArea req.target_area) st.orders
        moveAuditTrail := st.moveAuditTrail ++ [entry] })

/-- `demoMoveOrder` (`api.ts` lines 657–671): the legacy demo move — same
order rewrite as `moveOrder`, no audit entry. -/
def demoMoveOrder (st : DemoState) (orderId : String) (targetArea : Area) :
    Except String (Order × DemoState) :=
  match st.orders.find? (fun o => o.Order == orderId) with
  | none => Except.error "Order not found"
  | some prev =>
    let sapArea := deriveArea prev.System_Status st.statusMappings
    let updated := moveUpdate sapArea targetArea prev
    Except.ok (updated,
      { st with
        orders := updateFirst (fun o => o.Order == orderId)
          (moveUpdate sapArea targetArea) st.orders })

/-- `markOrderReady` (`api.ts` lines 676–681), demo branch: move to Production. -/
def markOrderReady (st : DemoState) (orderId : String) :
    Except String (Order × DemoState) :=
  demoMoveOrder st orderId Area.Production

/-- The discriminated outcome of a move attempted through the dialog. -/
inductive MoveOutcome where
  | blocked (reason : String)
  | validationFailure
  | orderNotFound
  | success (result : FlowMoveResult)
deriving DecidableEq, Repr

/-- The move operation as mediated by `MoveOrderDialog` (`App.tsx`):
a set `blockedReason` disables confirmation; a move back (`isNextStep =
false`) requires a justification whose trimmed length is at least 5
(`canConfirm`), and passes the trimmed justification on; a next step
passes no justification.  `handleConfirm` returns without calling
`moveOrder` when `canConfirm` is false, so failed validation leaves the
state untouched. -/
def moveViaDialog (st : DemoState) (orderId : String) (targetArea : Area)
    (isNextStep : Bool) (blockedReason : Option String)
    (justification : String) (now : String) : MoveOutcome × DemoState :=
  match blockedReason with
  | some r => (MoveOutcome.blocked r, st)
  | none =>
    if !isNextStep && (strTrim justification).length < 5 then
      (MoveOutcome.validationFailure, st)
    else
      match moveOrder st
        { order_id := orderId
          target_area := targetArea
          justification := if isNextStep then none else some (strTrim justification)
          moved_by := none } now with
      | Except.error _ => (MoveOutcome.orderNotFound, st)
      | Except.ok (res, st2) => (MoveOutcome.success res, st2)

/-! ### Area modes (`api.ts` lines 213–252, demo branch)

The persisted document is a JSON object; we model it as an association
list from key strings to modes, `none` standing for an absent
`localStorage` entry. -/

/-- `AreaMode` from `types.ts`. -/
inductive AreaMode where
  | AUTO
  | MANUAL
deriving DecidableEq, Repr

/-- The result object of `saveAreaModes`. -/
structure SaveAreaModesResult where
  saved : Bool
  local_ : Bool
deriving DecidableEq, Repr

/-- Demo branch of `saveAreaModes`: write the given map to storage and
report success.  No inspection of the map happens at all. -/
def saveAreaModes (modes : List (String × AreaMode))
    (_store : Option (List (String × AreaMode))) :
    SaveAreaModesResult × Option (List (String × AreaMode)) :=
  ({ saved := true, local_ := true }, some modes)

/-- Reading one key of the object built by the demo branch of
`getAreaModes`, `{ ...DEFAULT_AREA_MODES, ...JSON.parse(raw) }`: the stored
value when the key is present, `AUTO` otherwise. -/
def areaModeOf (store : Option (List (String × AreaMode))) (key : String) : AreaMode :=
  match store with
  | none => AreaMode.AUTO
  | some m => (m.lookup key).getD AreaMode.AUTO

/-! ### Flow errors (`computeFlowErrors`, `api.ts` lines 359–438) -/

/-- Rendering of an `Area` into the template strings of `computeFlowErrors`. -/
def areaStr : Area → String
  | Area.Orders => "Orders"
  | Area.Warehouse => "Warehouse"
  | Area.Production => "Production"
  | Area.Logistics => "Logistics"

/-- `concatMap f l` is the list of all `f a` for `a` in `l`, concatenated —
the accumulation performed by the `for` loops pushing onto `errors`. -/
def concatMap (f : α → List β) : List α → List β
  | [] => []
  | a :: rest => f a ++ concatMap f rest

/-- The E1 error object pushed for order `o` (with `sapArea` the value of
`o.sap_area ?? deriveArea(o.System_Status, mappings)`). -/
def e1Entry (sapArea : Area) (o : Order) : FlowError :=
  { order_id := o.Order
    Order := o.Order
    Material := o.Material
    Plant := o.Plant
    category := ErrorCategory.E1_DISCREPANCY
    description := "Manually placed in " ++ areaStr o.current_area ++
      ", but SAP mapping says " ++ areaStr sapArea
    current_area := some o.current_area
    sap_area := some sapArea
    system_status := some o.System_Status }

/-- An E4 error object pushed for order `o`. -/
def e4Entry (description : String) (o : Order) : FlowError :=
  { order_id := o.Order
    Order := o.Order
    Material := o.Material
    Plant := o.Plant
    category := ErrorCategory.E4_INVALID
    description := description
    current_area := none
    sap_area := none
    system_status := some o.System_Status }

/-- The first loop body of `computeFlowErrors`: the E1 check followed by the
three independent E4 checks, in push order. -/
def flowErrorsFor (mappings : List StatusMapping) (o : Order) : List FlowError :=
  let sapArea := o.sap_area.getD (deriveArea o.System_Status mappings)
  (if o.source = some Source.manual ∧ sapArea ≠ o.current_area
    then [e1Entry sapArea o] else []) ++
  (if o.Start_date_sched ≠ "" ∧ o.Scheduled_finish_date ≠ "" ∧
      strGt o.Start_date_sched o.Scheduled_finish_date = true
    then [e4Entry ("Finish date (" ++ o.Scheduled_finish_date ++
      ") is before start date (" ++ o.Start_date_sched ++ ")") o] else []) ++
  (if o.Order_quantity ≤ 0
    then [e4Entry ("Order quantity is " ++ toString o.Order_quantity ++
      " (must be > 0)") o] else []) ++
  (if o.Delivered_quantity > o.Order_quantity
    then [e4Entry ("Delivered quantity (" ++ toString o.Delivered_quantity ++
      ") exceeds ordered quantity (" ++ toString o.Order_quantity ++ ")") o] else [])

/-- The second loop body of `computeFlowErrors`: the E2 regression check
(`o.has_changes && o.changed_fields?.includes('System_Status')`, with JS
truthiness for the absent optionals). -/
def e2ErrorsFor (o : Order) : List FlowError :=
  if o.has_changes.getD false = true ∧ (o.changed_fields.getD []).contains "System_Status"
  then
    [{ order_id := o.Order
       Order := o.Order
       Material := o.Material
       Plant := o.Plant
       category := ErrorCategory.E2_REGRESS
       description := "System status changed in latest upload — verify progression"
       current_area := none
       sap_area := none
       system_status := some o.System_Status }]
  else []

/-- `computeFlowErrors` (demo-independent pure function): the E1/E4 loop over
all orders followed by the E2 loop over all orders. -/
def computeFlowErrors (orders : List Order) (mappings : List StatusMapping) :
    List FlowError :=
  concatMap (flowErrorsFor mappings) orders ++ concatMap e2ErrorsFor orders

/-! ### Spec-side characterization of the resolver

The spec describes the resolver declaratively: collect, token by token, the
first active mapping matching each token exactly, and return the
earliest-occurring match of strictly maximal `sort_order`.  The
definitions below follow those words; the C2 theorem proves the embedded
`getEffectiveStatus` equal to them. -/

/-- The matches collected scanning the tokens left to right. -/
def tokenMatches (systemStatus : String) (mappings : List StatusMapping) :
    List StatusMapping :=
  (splitTokens systemStatus).filterMap (findActive mappings)

/-- The greatest `sort_order` occurring in a list of mappings. -/
def maxSort : List StatusMapping → Option Int
  | [] => none
  | m :: rest => some ((maxSort rest).elim m.sort_order (fun x => max m.sort_order x))

/-- The earliest-occurring mapping of maximal `sort_order`: the spec's
winner under strictly-greater comparisons with ties to the earliest token. -/
def leftmostMax (l : List StatusMapping) : Option StatusMapping :=
  match maxSort l with
  | none => none
  | some mx => l.find? fun m => m.sort_order == mx

/-- The accumulator step of `getEffectiveStatus` once a token has matched. -/
def pickBest (best : Option StatusMapping) (m : StatusMapping) : Option StatusMapping :=
  match best with
  | none => some m
  | some b => if m.sort_order > b.sort_order then some m else some b

/-- Merging an accumulator with the winner of the remaining matches. -/
def combine (acc : Option StatusMapping) : Option StatusMapping → Option StatusMapping
  | none => acc
  | some m => pickBest acc m

/-! ### The discrepancy invariant (spec §3) and error predicates

`discrepancy == (source==manual AND sap_area != current_area)`, read with
JS truthiness for the optional fields (an absent `discrepancy` reads as
`false`). -/

/-- The boolean the invariant demands of `discrepancy`. -/
def expectedDiscrepancy (o : Order) : Bool :=
  decide (o.source = some Source.manual) && decide (o.sap_area ≠ some o.current_area)

/-- The invariant itself, on one order. -/
def orderInvariant (o : Order) : Prop :=
  o.discrepancy.getD false = expectedDiscrepancy o

instance (o : Order) : Decidable (orderInvariant o) := by
  unfold orderInvariant
  infer_instance

/-- Category test used to select the E1 errors of a run. -/
def isE1 (e : FlowError) : Bool :=
  decide (e.category = ErrorCategory.E1_DISCREPANCY)

/-- Category test used to select the E4 errors of a run. -/
def isE4 (e : FlowError) : Bool :=
  decide (e.category = ErrorCategory.E4_INVALID)

/-- The number of E4 rules an order violates, stated the way the spec lists
them: start after finish (both dates present, lexicographic comparison),
non-positive ordered quantity, delivered exceeding ordered. -/
def e4RuleCount (o : Order) : Nat :=
  (if o.Start_date_sched ≠ "" ∧ o.Scheduled_finish_date ≠ "" ∧
      strGt o.Start_date_sched o.Scheduled_finish_date = true then 1 else 0)
  + (if o.Order_quantity ≤ 0 then 1 else 0)
  + (if o.Delivered_quantity > o.Order_quantity then 1 else 0)

/-- The key list of a modes object. -/
def modesKeys (modes : List (String × AreaMode)) : List String :=
  modes.map Prod.fst

/-! ### Concrete sample data (used by witnesses and counterexamples) -/

/-- A small mapping table drawn from `mockData.ts`
(`PCNF` is the Production mapping with the highest `sort_order`). -/
def exMappings : List StatusMapping :=
  [ { id := "1", system_status_value := "REL", mapped_area := Area.Orders,
      mapped_label := "Released", sort_order := 2, is_active := true },
    { id := "2", system_status_value := "GMPS", mapped_area := Area.Warehouse,
      mapped_label := "Goods Movement Start", sort_order := 1, is_active := true },
    { id := "3", system_status_value := "PCNF", mapped_area := Area.Production,
      mapped_label := "Partially Confirmed", sort_order := 8, is_active := true } ]

/-- A system-sourced sample order sitting in the Warehouse with status
`GMPS` (which derives to `Warehouse` under `exMappings`). -/
def exOrder : Order :=
  { Order := "ORD-1", Plant := "PLANT-A", Material := "MAT-001",
    Material_description := "Steel Frame Assembly",
    Start_date_sched := "2024-01-01", Scheduled_finish_date := "2024-02-01",
    Order_quantity := 100, Delivered_quantity := 0,
    System_Status := "GMPS", User_Status := "",
    current_area := Area.Warehouse, has_changes := none, changed_fields := none,
    source := none, sap_area := none, discrepancy := none }

/-- `exOrder` marked manual. -/
def exManualOrder : Order :=
  { exOrder with source := some Source.manual }

/-- A manually placed order whose cached `sap_area` agrees with its
`current_area` while a fresh derivation does not. -/
def exC1Order : Order :=
  { exOrder with
    source := some Source.manual
    current_area := Area.Production
    sap_area := some Area.Production }

/-- A one-order demo state. -/
def exSt : DemoState :=
  { orders := [exOrder], statusMappings := exMappings, moveAuditTrail := [] }

/-- A move request taking `exOrder` to Production. -/
def exReq : FlowMoveRequest :=
  { order_id := "ORD-1", target_area := Area.Production,
    justification := none, moved_by := none }

/-- The move result produced by `moveOrder exSt exReq "T0"`. -/
def exRes : FlowMoveResult :=
  { order_id := "ORD-1", previous_area := Area.Warehouse,
    current_area := Area.Production, source := Source.manual,
    moved_at := "T0", moved_by := "current_user" }

/-- The demo state produced by `moveOrder exSt exReq "T0"`. -/
def exSt2 : DemoState :=
  { orders := [moveUpdate Area.Warehouse Area.Production exOrder],
    statusMappings := exMappings,
    moveAuditTrail := [{ order_id := "ORD-1", fromArea := Area.Warehouse,
                         toArea := Area.Production, justification := none,
                         moved_at := "T0", moved_by := "current_user" }] }

/-- Two active mappings sharing the same `system_status_value` (the design
gap the spec notes is not prevented); listed first. -/
def exDupA : StatusMapping :=
  { id := "d1", system_status_value := "GMPS", mapped_area := Area.Warehouse,
    mapped_label := "Goods Movement Start", sort_order := 1, is_active := true }

/-- The later duplicate with a higher `sort_order`. -/
def exDupB : StatusMapping :=
  { id := "d2", system_status_value := "GMPS", mapped_area := Area.Production,
    mapped_label := "Duplicate Row", sort_order := 5, is_active := true }

/-- A mapping table with duplicate active `GMPS` rows. -/
def exDupMappings : List StatusMapping := [exDupA, exDupB]

lemma isEmpty_true_iff (l : List Char) : l.isEmpty = true ↔ l = [] := by
  cases l <;> simp

lemma reverse_mem_ne_nil {acc t : List Char} (hacc : acc.isEmpty = false)
    (h : t = acc.reverse) : t ≠ [] := by
  intro hnil
  rw [hnil] at h
  have : acc = [] := by simpa using h.symm
  rw [this] at hacc
  simp at hacc

lemma tokenizeAux_ne_nil (cs : List Char) :
    ∀ acc t, t ∈ tokenizeAux cs acc → t ≠ [] := by
  induction cs with
  | nil =>
    intro acc t ht
    cases hacc : acc.isEmpty with
    | true =>
      rw [show tokenizeAux [] acc = [] by simp [tokenizeAux, hacc]] at ht
      exact absurd ht (List.not_mem_nil t)
    | false =>
      rw [show tokenizeAux [] acc = [acc.reverse] by simp [tokenizeAux, hacc]] at ht
      exact reverse_mem_ne_nil hacc (List.mem_singleton.mp ht)
  | cons c rest ih =>
    intro acc t ht
    cases hws : c.isWhitespace with
    | false =>
      rw [show tokenizeAux (c :: rest) acc = tokenizeAux rest (c :: acc) by
        simp [tokenizeAux, hws]] at ht
      exact ih (c :: acc) t ht
    | true =>
      cases hacc : acc.isEmpty with
      | true =>
        rw [show tokenizeAux (c :: rest) acc = tokenizeAux rest [] by
          simp [tokenizeAux, hws, hacc]] at ht
        exact ih [] t ht
      | false =>
        rw [show tokenizeAux (c :: rest) acc = acc.reverse :: tokenizeAux rest [] by
          simp [tokenizeAux, hws, hacc]] at ht
        rcases List.mem_cons.mp ht with h1 | h2
        · exact reverse_mem_ne_nil hacc h1
        · exact ih [] t h2

lemma splitTokens_ne_empty (s : String) :
    ∀ t ∈ splitTokens s, t ≠ "" := by
  intro t ht
  simp only [splitTokens, List.mem_map] at ht
  rcases ht with ⟨l, hl, rfl⟩
  have hnn := tokenizeAux_ne_nil s.data [] l hl
  intro hcontra
  apply hnn
  have : (String.mk l).data = ("" : String).data := by rw [hcontra]
  simpa using this

lemma foldl_step_eq_filterMap (mappings : List StatusMapping) :
    ∀ (toks : List String) (acc : Option StatusMapping),
      toks.foldl
        (fun best token =>
          match findActive mappings token, best with
          | some m, none => some m
          | some m, some b => if m.sort_order > b.sort_order then some m else some b
          | none, a => a)
        acc
      = (toks.filterMap (findActive mappings)).foldl pickBest acc := by
  intro toks
  induction toks with
  | nil => intro acc; rfl
  | cons t rest ih =>
    intro acc
    cases h : findActive mappings t with
    | none =>
      simp only [List.foldl_cons, List.filterMap_cons, h, ih]
    | some m =>
      simp only [List.foldl_cons, List.filterMap_cons, h, ih]
      congr 1
      cases acc <;> rfl

lemma combine_some (acc : Option StatusMapping) (m : StatusMapping) :
    combine acc (some m) = pickBest acc m := rfl

lemma maxSort_nil : maxSort [] = none := rfl

lemma maxSort_cons (m : StatusMapping) (rest : List StatusMapping) :
    maxSort (m :: rest)
      = some ((maxSort rest).elim m.sort_order (fun x => max m.sort_order x)) := rfl

lemma leftmostMax_matchArm (l : List StatusMapping) (mx : Int)
    (h : maxSort l = some mx) :
    leftmostMax l = l.find? (fun m => m.sort_order == mx) := by
  unfold leftmostMax
  rw [h]

lemma leftmostMax_find_of_maxSort :
    ∀ (l : List StatusMapping) (mx : Int), maxSort l = some mx →
      ∃ r, l.find? (fun m => m.sort_order == mx) = some r ∧ r.sort_order = mx := by
  intro l
  induction l with
  | nil => intro mx h; exact Option.noConfusion h
  | cons m rest ih =>
    intro mx h
    rw [maxSort_cons] at h
    cases hrest : maxSort rest with
    | none =>
      rw [hrest] at h
      simp only [Option.elim, Option.some.injEq] at h
      refine ⟨m, ?_, h⟩
      apply List.find?_cons_of_pos
      simp [h]
    | some x =>
      rw [hrest] at h
      simp only [Option.elim, Option.some.injEq] at h
      rcases le_or_lt x m.sort_order with hle | hlt
      · have hmx : mx = m.sort_order := by rw [← h, max_eq_left hle]
        refine ⟨m, ?_, hmx.symm⟩
        apply List.find?_cons_of_pos
        simp [hmx]
      · have hmx : mx = x := by rw [← h, max_eq_right (le_of_lt hlt)]
        subst hmx
        rcases ih mx hrest with ⟨r, hr, hrs⟩
        refine ⟨r, ?_, hrs⟩
        rw [List.find?_cons_of_neg, hr]
        simp only [beq_iff_eq]
        omega

lemma leftmostMax_cons (m : StatusMapping) (rest : List StatusMapping) :
    leftmostMax (m :: rest)
      = match leftmostMax rest with
        | none => some m
        | some r => if r.sort_order > m.sort_order then some r else some m := by
  cases hrest : maxSort rest with
  | none =>
    have hnil : rest = [] := by
      cases rest with
      | nil => rfl
      | cons a b => exact Option.noConfusion hrest
    subst hnil
    have h1 : maxSort [m] = some m.sort_order := rfl
    rw [leftmostMax_matchArm [m] m.sort_order h1]
    have hfind : List.find? (fun mm => mm.sort_order == m.sort_order) [m] = some m := by
      apply List.find?_cons_of_pos
      simp
    rw [hfind]
    rfl
  | some x =>
    rcases leftmostMax_find_of_maxSort rest x hrest with ⟨r, hr, hrs⟩
    have hlm : leftmostMax rest = some r := by
      rw [leftmostMax_matchArm rest x hrest, hr]
    rw [hlm]
    have hcons : maxSort (m :: rest) = some (max m.sort_order x) := by
      rw [maxSort_cons, hrest]
      rfl
    rw [leftmostMax_matchArm (m :: rest) (max m.sort_order x) hcons]
    dsimp only
    rcases le_or_lt x m.sort_order with hle | hlt
    · rw [max_eq_left hle]
      have hfind : List.find? (fun mm => mm.sort_order == m.sort_order) (m :: rest)
          = some m := by
        apply List.find?_cons_of_pos
        simp
      rw [hfind, if_neg (by omega : ¬ r.sort_order > m.sort_order)]
    · rw [max_eq_right (le_of_lt hlt)]
      rw [List.find?_cons_of_neg, hr, if_pos (by omega : r.sort_order > m.sort_order)]
      simp only [beq_iff_eq]
      omega

lemma pickBest_assoc (acc : Option StatusMapping) (m r : StatusMapping) :
    pickBest (pickBest acc m) r
      = pickBest acc (if r.sort_order > m.sort_order then r else m) := by
  cases acc with
  | none =>
    simp only [pickBest]
    split <;> rfl
  | some b =>
    simp only [pickBest]
    by_cases h1 : m.sort_order > b.sort_order
    · rw [if_pos h1]
      by_cases h2 : r.sort_order > m.sort_order
      · have h3 : r.sort_order > b.sort_order := by omega
        simp only [pickBest, if_pos h2, if_pos h1, if_pos h3]
      · simp only [pickBest, if_neg h2, if_pos h1]
    · rw [if_neg h1]
      by_cases h2 : r.sort_order > m.sort_order
      · simp only [pickBest, if_pos h2]
      · have h3 : ¬ (r.sort_order > b.sort_order) := by omega
        simp only [pickBest, if_neg h2, if_neg h1, if_neg h3]

lemma foldl_pickBest_eq_leftmostMax :
    ∀ (l : List StatusMapping) (acc : Option StatusMapping),
      l.foldl pickBest acc = combine acc (leftmostMax l) := by
  intro l
  induction l with
  | nil => intro acc; cases acc <;> rfl
  | cons m rest ih =>
    intro acc
    rw [List.foldl_cons, ih (pickBest acc m), leftmostMax_cons]
    cases hrest : leftmostMax rest with
    | none => simp [combine]
    | some r =>
      simp only [combine_some]
      rw [pickBest_assoc]
      split <;> rfl

lemma getEffectiveStatus_eq_leftmostMax (s : String) (mappings : List StatusMapping) :
    getEffectiveStatus s mappings = leftmostMax (tokenMatches s mappings) := by
  unfold getEffectiveStatus tokenMatches
  rw [foldl_step_eq_filterMap, foldl_pickBest_eq_leftmostMax]
  cases leftmostMax ((splitTokens s).filterMap (findActive mappings)) <;> rfl

lemma leftmostMax_eq_none_iff (l : List StatusMapping) :
    leftmostMax l = none ↔ l = [] := by
  cases l with
  | nil => simp [leftmostMax, maxSort]
  | cons m rest =>
    rw [leftmostMax_cons]
    constructor
    · intro h
      exfalso
      cases hrest : leftmostMax rest with
      | none =>
        rw [hrest] at h
        exact Option.noConfusion h
      | some r =>
        rw [hrest] at h
        dsimp only at h
        by_cases hgt : r.sort_order > m.sort_order
        · rw [if_pos hgt] at h; exact Option.noConfusion h
        · rw [if_neg hgt] at h; exact Option.noConfusion h
    · intro h
      exact absurd h (List.cons_ne_nil m rest)

/-! ### Helper lemmas on moves and the mapping pass -/

lemma find?_pre_cons (p : Order → Bool) :
    ∀ (pre : List Order) (prev : Order) (post : List Order),
      (∀ o ∈ pre, p o = false) → p prev = true →
      List.find? p (pre ++ prev :: post) = some prev := by
  intro pre
  induction pre with
  | nil =>
    intro prev post _ hprev
    simpa using List.find?_cons_of_pos _ hprev
  | cons a rest ih =>
    intro prev post hpre hprev
    have ha : p a = false := hpre a (List.mem_cons_self a rest)
    rw [List.cons_append, List.find?_cons_of_neg, ih prev post _ hprev]
    · intro o ho
      exact hpre o (List.mem_cons_of_mem a ho)
    · simp [ha]

lemma updateFirst_pre_cons (p : Order → Bool) (f : Order → Order) :
    ∀ (pre : List Order) (prev : Order) (post : List Order),
      (∀ o ∈ pre, p o = false) → p prev = true →
      updateFirst p f (pre ++ prev :: post) = pre ++ f prev :: post := by
  intro pre
  induction pre with
  | nil =>
    intro prev post _ hprev
    simp [updateFirst, hprev]
  | cons a rest ih =>
    intro prev post hpre hprev
    have ha : p a = false := hpre a (List.mem_cons_self a rest)
    simp only [List.cons_append, updateFirst, ha]
    rw [if_neg (by simp [ha])]
    simp only [List.append_eq]
    rw [ih prev post (fun o ho => hpre o (List.mem_cons_of_mem a ho)) hprev]

lemma updateFirst_mem (p : Order → Bool) (f : Order → Order) :
    ∀ (l : List Order) (o : Order), o ∈ updateFirst p f l →
      o ∈ l ∨ ∃ o0, o0 ∈ l ∧ o = f o0 := by
  intro l
  induction l with
  | nil =>
    intro o ho
    exact absurd ho (List.not_mem_nil o)
  | cons a rest ih =>
    intro o ho
    simp only [updateFirst] at ho
    by_cases ha : p a
    · rw [if_pos ha] at ho
      rcases List.mem_cons.mp ho with h1 | h2
      · exact Or.inr ⟨a, List.mem_cons_self a rest, h1⟩
      · exact Or.inl (List.mem_cons_of_mem a h2)
    · rw [if_neg ha] at ho
      rcases List.mem_cons.mp ho with h1 | h2
      · exact Or.inl (h1 ▸ List.mem_cons_self a rest)
      · rcases ih o h2 with h3 | ⟨o0, ho0, rfl⟩
        · exact Or.inl (List.mem_cons_of_mem a h3)
        · exact Or.inr ⟨o0, List.mem_cons_of_mem a ho0, rfl⟩

/-- `applyOne` never changes the raw status or the source of an order. -/
lemma applyOne_preserves (mappings : List StatusMapping) (o : Order) :
    (applyOne mappings o).System_Status = o.System_Status ∧
    (applyOne mappings o).source = o.source := by
  constructor <;> rfl

/-- One pass through `applyOne` is idempotent on each order. -/
lemma applyOne_idem (mappings : List StatusMapping) (o : Order) :
    applyOne mappings (applyOne mappings o) = applyOne mappings o := by
  by_cases h : o.source = some Source.manual
  · simp [applyOne, h]
  · simp [applyOne, h]

lemma applyOne_invariant (mappings : List StatusMapping) (o : Order) :
    orderInvariant (applyOne mappings o) := by
  unfold orderInvariant expectedDiscrepancy applyOne
  by_cases h : o.source = some Source.manual
  · simp [h]
  · simp [h]

lemma moveUpdate_invariant (sapArea target : Area) (o : Order) :
    orderInvariant (moveUpdate sapArea target o) := by
  unfold orderInvariant expectedDiscrepancy moveUpdate
  simp

/-- Inversion for a successful `moveOrder`: the order existed and the new
order table is the single-spot rewrite. -/
lemma moveOrder_ok_orders {st : DemoState} {req : FlowMoveRequest} {now : String}
    {res : FlowMoveResult} {st2 : DemoState}
    (h : moveOrder st req now = Except.ok (res, st2)) :
    ∃ prev, st.orders.find? (fun o => o.Order == req.order_id) = some prev ∧
      st2.orders = updateFirst (fun o => o.Order == req.order_id)
        (moveUpdate (deriveArea prev.System_Status st.statusMappings) req.target_area)
        st.orders := by
  unfold moveOrder at h
  cases hfind : st.orders.find? (fun o => o.Order == req.order_id) with
  | none =>
    rw [hfind] at h
    exact Except.noConfusion h
  | some prev =>
    rw [hfind] at h
    refine ⟨prev, rfl, ?_⟩
    simp only [Except.ok.injEq, Prod.mk.injEq] at h
    rw [← h.2]

/-- Inversion for a successful `demoMoveOrder`. -/
lemma demoMoveOrder_ok_orders {st : DemoState} {orderId : String} {targetArea : Area}
    {upd : Order} {st2 : DemoState}
    (h : demoMoveOrder st orderId targetArea = Except.ok (upd, st2)) :
    ∃ prev, st.orders.find? (fun o => o.Order == orderId) = some prev ∧
      st2.orders = updateFirst (fun o => o.Order == orderId)
        (moveUpdate (deriveArea prev.System_Status st.statusMappings) targetArea)
        st.orders := by
  unfold demoMoveOrder at h
  cases hfind : st.orders.find? (fun o => o.Order == orderId) with
  | none =>
    rw [hfind] at h
    exact Except.noConfusion h
  | some prev =>
    rw [hfind] at h
    refine ⟨prev, rfl, ?_⟩
    simp only [Except.ok.injEq, Prod.mk.injEq] at h
    rw [← h.2]

/-- Invariant preservation through the single-spot rewrite of a move. -/
lemma updateFirst_moveUpdate_invariant (p : Order → Bool) (sapArea target : Area)
    (l : List Order) (hinv : ∀ o ∈ l, orderInvariant o) :
    ∀ o ∈ updateFirst p (moveUpdate sapArea target) l, orderInvariant o := by
  intro o ho
  rcases updateFirst_mem p (moveUpdate sapArea target) l o ho with hmem | ⟨o0, _, rfl⟩
  · exact hinv o hmem
  · exact moveUpdate_invariant sapArea target o0

/-! ### Filter lemmas for the error classifier -/

lemma filter_concatMap {α β : Type} (p : β → Bool) (f : α → List β) :
    ∀ l : List α, (concatMap f l).filter p = concatMap (fun a => (f a).filter p) l := by
  intro l
  induction l with
  | nil => rfl
  | cons a rest ih =>
    simp only [concatMap, List.filter_append, ih]

lemma concatMap_nil_fun {α β : Type} (f : α → List β) (hf : ∀ a, f a = []) :
    ∀ l : List α, concatMap f l = [] := by
  intro l
  induction l with
  | nil => rfl
  | cons a rest ih => simp only [concatMap, hf a, ih, List.nil_append]

lemma length_concatMap {α β : Type} (f : α → List β) :
    ∀ l : List α, (concatMap f l).length = (l.map fun a => (f a).length).sum := by
  intro l
  induction l with
  | nil => rfl
  | cons a rest ih =>
    simp only [concatMap, List.length_append, ih, List.map_cons, List.sum_cons]

lemma isE1_e1Entry (sapArea : Area) (o : Order) : isE1 (e1Entry sapArea o) = true := rfl

lemma isE1_e4Entry (d : String) (o : Order) : isE1 (e4Entry d o) = false := rfl

lemma isE4_e1Entry (sapArea : Area) (o : Order) : isE4 (e1Entry sapArea o) = false := rfl

lemma isE4_e4Entry (d : String) (o : Order) : isE4 (e4Entry d o) = true := rfl

lemma e2ErrorsFor_filter_isE1 (o : Order) : (e2ErrorsFor o).filter isE1 = [] := by
  unfold e2ErrorsFor
  split
  · simp [List.filter, isE1]
  · rfl

lemma e2ErrorsFor_filter_isE4 (o : Order) : (e2ErrorsFor o).filter isE4 = [] := by
  unfold e2ErrorsFor
  split
  · simp [List.filter, isE4]
  · rfl

lemma flowErrorsFor_filter_isE1 (mappings : List StatusMapping) (o : Order) :
    (flowErrorsFor mappings o).filter isE1
      = (if o.source = some Source.manual ∧
            o.sap_area.getD (deriveArea o.System_Status mappings) ≠ o.current_area
         then [e1Entry (o.sap_area.getD (deriveArea o.System_Status mappings)) o]
         else []) := by
  unfold flowErrorsFor
  simp only [List.filter_append]
  split_ifs <;>
    simp [List.filter_cons, List.filter_nil, isE1_e1Entry, isE1_e4Entry]

lemma flowErrorsFor_filter_isE4_length (mappings : List StatusMapping) (o : Order) :
    ((flowErrorsFor mappings o).filter isE4).length = e4RuleCount o := by
  unfold flowErrorsFor e4RuleCount
  simp only [List.filter_append]
  split_ifs <;>
    simp [List.filter_cons, List.filter_nil, isE4_e1Entry, isE4_e4Entry]

/-! ### Extra facts about the resolver -/

lemma leftmostMax_mem {l : List StatusMapping} {m : StatusMapping}
    (h : leftmostMax l = some m) : m ∈ l := by
  unfold leftmostMax at h
  cases hmx : maxSort l with
  | none => rw [hmx] at h; exact Option.noConfusion h
  | some mx =>
    rw [hmx] at h
    exact List.mem_of_find?_eq_some h

lemma tokenMatches_mem {s : String} {mappings : List StatusMapping}
    {m : StatusMapping} (h : m ∈ tokenMatches s mappings) :
    m.is_active = true ∧ m.system_status_value ∈ splitTokens s := by
  unfold tokenMatches at h
  rcases List.mem_filterMap.mp h with ⟨t, ht, hfa⟩
  unfold findActive at hfa
  have hp := List.find?_some hfa
  simp only [Bool.and_eq_true, beq_iff_eq] at hp
  exact ⟨hp.2, hp.1 ▸ ht⟩

lemma find?_eq_head_filter (p : StatusMapping → Bool) :
    ∀ l : List StatusMapping, l.find? p = (l.filter p).head? := by
  intro l
  induction l with
  | nil => rfl
  | cons a rest ih =>
    by_cases h : p a
    · rw [List.find?_cons_of_pos _ h, List.filter_cons_of_pos h]
      rfl
    · rw [List.find?_cons_of_neg _ (by simpa using h),
          List.filter_cons_of_neg (by simpa using h), ih]

lemma foldl_congr_fun {α β : Type} (f g : β → α → β) (l : List α) (b : β)
    (h : ∀ x a, f x a = g x a) : l.foldl f b = l.foldl g b := by
  induction l generalizing b with
  | nil => rfl
  | cons a rest ih => rw [List.foldl_cons, List.foldl_cons, h, ih]

lemma findActive_eq_head_filter (mappings : List StatusMapping) (t : String) :
    findActive mappings t
      = (mappings.filter fun m => m.system_status_value == t && m.is_active).head? := by
  unfold findActive
  exact find?_eq_head_filter _ _

/-! ## The claims -/

/-- C1 (counterexample): the claim says `computeFlowErrors` decides E1 from
a fresh `deriveArea` run and that the cached `sap_area` plays no role; but
on a manual order whose cached `sap_area` equals its `current_area` while
the fresh derivation differs, the code emits no E1 error. -/
theorem c1_cached_sap_area_counterexample :
    exC1Order.source = some Source.manual
    ∧ deriveArea exC1Order.System_Status exMappings ≠ exC1Order.current_area
    ∧ (computeFlowErrors [exC1Order] exMappings).filter isE1 = [] := by
  exact ⟨rfl, by decide, by decide⟩

/-- C1 (amended): for every order in the input list, `computeFlowErrors`
emits an E1_DISCREPANCY error exactly when the order's source is manual and
the effective SAP area — the cached `sap_area` when present, otherwise
`deriveArea` recomputed against the mapping list passed in — differs from
`current_area`; the cached field takes precedence over fresh derivation. -/
theorem c1_e1_uses_cached_sap_area (orders : List Order) (mappings : List StatusMapping) :
    (computeFlowErrors orders mappings).filter isE1
      = concatMap
          (fun o =>
            if o.source = some Source.manual ∧
                o.sap_area.getD (deriveArea o.System_Status mappings) ≠ o.current_area
            then [e1Entry (o.sap_area.getD (deriveArea o.System_Status mappings)) o]
            else [])
          orders := by
  unfold computeFlowErrors
  rw [List.filter_append, filter_concatMap, filter_concatMap,
      concatMap_nil_fun (fun o => (e2ErrorsFor o).filter isE1) e2ErrorsFor_filter_isE1,
      List.append_nil]
  congr 1
  funext o
  exact flowErrorsFor_filter_isE1 mappings o

/-- C2: `getEffectiveStatus` splits the status string into non-empty
whitespace-separated tokens, matches tokens exactly and case-sensitively
against active mappings only, and keeps a later candidate only under a
strictly greater `sort_order` — i.e. it returns the earliest-collected
match of maximal `sort_order`; it returns no mapping exactly when no token
matched, in which case `deriveArea` returns `Orders`. -/
theorem c2_effective_status_resolution (s : String) (mappings : List StatusMapping) :
    (∀ t ∈ splitTokens s, t ≠ "")
    ∧ getEffectiveStatus s mappings = leftmostMax (tokenMatches s mappings)
    ∧ (∀ m, getEffectiveStatus s mappings = some m →
        m.is_active = true ∧ m.system_status_value ∈ splitTokens s)
    ∧ (getEffectiveStatus s mappings = none ↔ tokenMatches s mappings = [])
    ∧ (getEffectiveStatus s mappings = none → deriveArea s mappings = Area.Orders) := by
  refine ⟨splitTokens_ne_empty s, getEffectiveStatus_eq_leftmostMax s mappings, ?_, ?_, ?_⟩
  · intro m hm
    rw [getEffectiveStatus_eq_leftmostMax] at hm
    exact tokenMatches_mem (leftmostMax_mem hm)
  · rw [getEffectiveStatus_eq_leftmostMax]
    exact leftmostMax_eq_none_iff _
  · intro h
    unfold deriveArea
    rw [h]

/-- C2 witness: the spec's own example — `"REL PRT PCNF"` with `REL` at
`sort_order` 2, `PCNF` at 8 mapping to Production, `PRT` unmapped. -/
theorem c2_effective_status_resolution_witness :
    getEffectiveStatus "REL PRT PCNF" exMappings
      = leftmostMax (tokenMatches "REL PRT PCNF" exMappings)
    ∧ deriveArea "REL PRT PCNF" exMappings = Area.Production := by
  exact ⟨(c2_effective_status_resolution "REL PRT PCNF" exMappings).2.1, by decide⟩

/-- C3: a MoveBack (`isNextStep = false`) whose justification trims to
fewer than 5 characters fails validation, mutating no order and no audit
entry (the returned state is the input state); a NextStep on an existing
order succeeds for every justification, including the empty one. -/
theorem c3_moveback_justification_gate :
    (∀ (st : DemoState) (orderId : String) (targetArea : Area)
       (justification now : String),
        (strTrim justification).length < 5 →
        moveViaDialog st orderId targetArea false none justification now
          = (MoveOutcome.validationFailure, st))
    ∧ (∀ (st : DemoState) (orderId : String) (targetArea : Area)
         (justification now : String) (prev : Order),
        st.orders.find? (fun o => o.Order == orderId) = some prev →
        ∃ res st2,
          moveViaDialog st orderId targetArea true none justification now
            = (MoveOutcome.success res, st2)) := by
  constructor
  · intro st orderId targetArea justification now h
    unfold moveViaDialog
    rw [if_pos (by simp [h])]
  · intro st orderId targetArea justification now prev hfind
    unfold moveViaDialog moveOrder
    rw [hfind]
    exact ⟨_, _, rfl⟩

/-- C3 witness: the spec's example — justification `"ok"` (trimmed length
2) fails the move-back validation leaving the state untouched. -/
theorem c3_moveback_justification_gate_witness :
    moveViaDialog exSt "ORD-1" Area.Orders false none "ok" "T1"
      = (MoveOutcome.validationFailure, exSt) :=
  c3_moveback_justification_gate.1 exSt "ORD-1" Area.Orders "ok" "T1" (by decide)

/-- C4: the mapping pass leaves a manual order's `current_area` unchanged
while refreshing `sap_area` and `discrepancy`; and after a move from
Warehouse to Production, a pass whose derivation yields Warehouse leaves
`current_area = Production`, `discrepancy = true`, `sap_area = Warehouse`. -/
theorem c4_mapping_pass_manual_frame :
    (∀ (mappings : List StatusMapping) (o : Order),
        o.source = some Source.manual →
        (applyOne mappings o).current_area = o.current_area
        ∧ (applyOne mappings o).sap_area = some (deriveArea o.System_Status mappings)
        ∧ (applyOne mappings o).discrepancy
            = some (decide (deriveArea o.System_Status mappings ≠ o.current_area)))
    ∧ (∀ (mappings : List StatusMapping) (o : Order),
        o.current_area = Area.Warehouse →
        deriveArea o.System_Status mappings = Area.Warehouse →
        (applyOne mappings
            (moveUpdate (deriveArea o.System_Status mappings) Area.Production o)).current_area
          = Area.Production
        ∧ (applyOne mappings
            (moveUpdate (deriveArea o.System_Status mappings) Area.Production o)).discrepancy
          = some true
        ∧ (applyOne mappings
            (moveUpdate (deriveArea o.System_Status mappings) Area.Production o)).sap_area
          = some Area.Warehouse) := by
  constructor
  · intro mappings o h
    refine ⟨?_, rfl, ?_⟩
    · simp [applyOne, h]
    · simp [applyOne, h]
  · intro mappings o hcur hder
    have hss : (moveUpdate (deriveArea o.System_Status mappings)
        Area.Production o).System_Status = o.System_Status := rfl
    refine ⟨?_, ?_, ?_⟩ <;> simp [applyOne, moveUpdate, hss, hder]

/-- C4 witness: `exOrder` sits in the Warehouse and derives to Warehouse;
after the move to Production the pass keeps Production, flags the
discrepancy and caches Warehouse. -/
theorem c4_mapping_pass_manual_frame_witness :
    (applyOne exMappings
        (moveUpdate (deriveArea exOrder.System_Status exMappings)
          Area.Production exOrder)).current_area = Area.Production
    ∧ (applyOne exMappings
        (moveUpdate (deriveArea exOrder.System_Status exMappings)
          Area.Production exOrder)).discrepancy = some true
    ∧ (applyOne exMappings
        (moveUpdate (deriveArea exOrder.System_Status exMappings)
          Area.Production exOrder)).sap_area = some Area.Warehouse :=
  c4_mapping_pass_manual_frame.2 exMappings exOrder rfl (by decide)

/-- C5: a successful `moveOrder` on a known order rewrites exactly that
order via `moveUpdate` (target area, manual source, freshly derived
`sap_area`, recomputed discrepancy), appends exactly one audit entry
recording the previous and target areas, and returns the documented
result; every other order is untouched. -/
theorem c5_move_success_effects (st : DemoState) (req : FlowMoveRequest) (now : String)
    (pre post : List Order) (prev : Order)
    (hsplit : st.orders = pre ++ prev :: post)
    (hpre : ∀ o ∈ pre, o.Order ≠ req.order_id)
    (hprev : prev.Order = req.order_id) :
    moveOrder st req now = Except.ok
      ({ order_id := req.order_id
         previous_area := prev.current_area
         current_area := req.target_area
         source := Source.manual
         moved_at := now
         moved_by := req.moved_by.getD "current_user" },
       { orders := pre ++
           moveUpdate (deriveArea prev.System_Status st.statusMappings)
             req.target_area prev :: post
         statusMappings := st.statusMappings
         moveAuditTrail := st.moveAuditTrail ++
           [{ order_id := req.order_id
              fromArea := prev.current_area
              toArea := req.target_area
              justification := req.justification
              moved_at := now
              moved_by := req.moved_by.getD "current_user" }] }) := by
  have hfalse : ∀ o ∈ pre, (fun o => o.Order == req.order_id) o = false := by
    intro o ho
    simp only [beq_eq_false_iff_ne, ne_eq]
    exact hpre o ho
  have htrue : (fun o => o.Order == req.order_id) prev = true := by
    simp [hprev]
  have hfind : st.orders.find? (fun o => o.Order == req.order_id) = some prev := by
    rw [hsplit]
    exact find?_pre_cons _ pre prev post hfalse htrue
  have hupd : updateFirst (fun o => o.Order == req.order_id)
      (moveUpdate (deriveArea prev.System_Status st.statusMappings) req.target_area)
      st.orders
      = pre ++ moveUpdate (deriveArea prev.System_Status st.statusMappings)
          req.target_area prev :: post := by
    rw [hsplit]
    exact updateFirst_pre_cons _ _ pre prev post hfalse htrue
  unfold moveOrder
  rw [hfind]
  dsimp only
  rw [hupd]

/-- C5 witness: the one-order demo state moved to Production at time `T0`. -/
theorem c5_move_success_effects_witness :
    moveOrder exSt exReq "T0" = Except.ok (exRes, exSt2) := by
  have h := c5_move_success_effects exSt exReq "T0" [] [] exOrder rfl
    (by intro o ho; exact absurd ho (List.not_mem_nil o)) rfl
  exact h

/-- C6: the invariant `discrepancy == (source==manual AND sap_area !=
current_area)` (JS truthiness for absent fields) holds for every order
unconditionally after a mapping pass, and is preserved by every successful
`moveOrder`, `demoMoveOrder` and `markOrderReady`. -/
theorem c6_discrepancy_invariant :
    (∀ (mappings : List StatusMapping) (orders : List Order),
        ∀ o ∈ updateStatusMappings mappings orders, orderInvariant o)
    ∧ (∀ (st : DemoState) (req : FlowMoveRequest) (now : String)
         (res : FlowMoveResult) (st2 : DemoState),
        moveOrder st req now = Except.ok (res, st2) →
        (∀ o ∈ st.orders, orderInvariant o) →
        ∀ o ∈ st2.orders, orderInvariant o)
    ∧ (∀ (st : DemoState) (orderId : String) (targetArea : Area)
         (upd : Order) (st2 : DemoState),
        demoMoveOrder st orderId targetArea = Except.ok (upd, st2) →
        (∀ o ∈ st.orders, orderInvariant o) →
        ∀ o ∈ st2.orders, orderInvariant o)
    ∧ (∀ (st : DemoState) (orderId : String) (upd : Order) (st2 : DemoState),
        markOrderReady st orderId = Except.ok (upd, st2) →
        (∀ o ∈ st.orders, orderInvariant o) →
        ∀ o ∈ st2.orders, orderInvariant o) := by
  refine ⟨?_, ?_, ?_, ?_⟩
  · intro mappings orders o ho
    unfold updateStatusMappings at ho
    rcases List.mem_map.mp ho with ⟨o0, _, rfl⟩
    exact applyOne_invariant mappings o0
  · intro st req now res st2 hmove hinv
    rcases moveOrder_ok_orders hmove with ⟨prev, _, horders⟩
    rw [horders]
    exact updateFirst_moveUpdate_invariant _ _ _ _ hinv
  · intro st orderId targetArea upd st2 hmove hinv
    rcases demoMoveOrder_ok_orders hmove with ⟨prev, _, horders⟩
    rw [horders]
    exact updateFirst_moveUpdate_invariant _ _ _ _ hinv
  · intro st orderId upd st2 hmove hinv
    unfold markOrderReady at hmove
    rcases demoMoveOrder_ok_orders hmove with ⟨prev, _, horders⟩
    rw [horders]
    exact updateFirst_moveUpdate_invariant _ _ _ _ hinv

/-- C6 witness: the invariant after a pass over `exOrder` and after the
concrete move `moveOrder exSt exReq "T0"`. -/
theorem c6_discrepancy_invariant_witness :
    orderInvariant (applyOne exMappings exOrder)
    ∧ orderInvariant (moveUpdate Area.Warehouse Area.Production exOrder) := by
  constructor
  · exact c6_discrepancy_invariant.1 exMappings [exOrder]
      (applyOne exMappings exOrder) (by decide)
  · exact c6_discrepancy_invariant.2.1 exSt exReq "T0" exRes exSt2 (by rfl)
      (by decide) (moveUpdate Area.Warehouse Area.Production exOrder) (by decide)

/-- C7: the mapping pass is idempotent — a second run with the same table
returns an identical order snapshot. -/
theorem c7_mapping_pass_idempotent (mappings : List StatusMapping) (orders : List Order) :
    updateStatusMappings mappings (updateStatusMappings mappings orders)
      = updateStatusMappings mappings orders := by
  unfold updateStatusMappings
  rw [List.map_map]
  congr 1
  funext o
  exact applyOne_idem mappings o

/-- C8: `computeFlowErrors` emits one separate E4_INVALID error per violated
rule — start after finish with both dates present, non-positive ordered
quantity, delivered exceeding ordered — so the E4 count is the sum of the
per-order rule-violation counts. -/
theorem c8_e4_one_error_per_rule (orders : List Order) (mappings : List StatusMapping) :
    ((computeFlowErrors orders mappings).filter isE4).length
      = (orders.map e4RuleCount).sum := by
  unfold computeFlowErrors
  rw [List.filter_append, filter_concatMap, filter_concatMap,
      concatMap_nil_fun (fun o => (e2ErrorsFor o).filter isE4) e2ErrorsFor_filter_isE4,
      List.append_nil, length_concatMap]
  have h : (fun o => ((flowErrorsFor mappings o).filter isE4).length) = e4RuleCount :=
    funext (flowErrorsFor_filter_isE4_length mappings)
  rw [h]

/-- C9 (counterexample): the claim says the save operation validates that
the key set is exactly the three flow areas and fails with a
`ValidationFailure` otherwise; but `saveAreaModes` performs no validation
at all — on a map with a bogus key set it succeeds and persists the map. -/
theorem c9_save_area_modes_counterexample :
    modesKeys [("Bogus", AreaMode.MANUAL)] ≠ ["Warehouse", "Production", "Logistics"]
    ∧ saveAreaModes [("Bogus", AreaMode.MANUAL)] none
        = ({ saved := true, local_ := true }, some [("Bogus", AreaMode.MANUAL)]) := by
  exact ⟨by decide, rfl⟩

/-- C9 (amended): `saveAreaModes` performs no runtime validation of the
modes map and never fails — it persists whatever it is given and reports
success (the three-key shape is only enforced by the static `AreaModes`
type); `getAreaModes` reads `AUTO` for any key not present in the stored
map. -/
theorem c9_area_modes_no_validation :
    (∀ (modes : List (String × AreaMode)) (store : Option (List (String × AreaMode))),
        saveAreaModes modes store = ({ saved := true, local_ := true }, some modes))
    ∧ (∀ (store : Option (List (String × AreaMode))) (key : String),
        (∀ m, store = some m → m.lookup key = none) →
        areaModeOf store key = AreaMode.AUTO) := by
  constructor
  · intro modes store
    rfl
  · intro store key h
    cases store with
    | none => rfl
    | some m =>
      unfold areaModeOf
      dsimp only
      rw [h m rfl]
      rfl

/-- C9 witness: saving a partial map succeeds, and reading an absent key
returns `AUTO`. -/
theorem c9_area_modes_no_validation_witness :
    saveAreaModes [("Warehouse", AreaMode.MANUAL)] none
      = ({ saved := true, local_ := true }, some [("Warehouse", AreaMode.MANUAL)])
    ∧ areaModeOf (some [("Warehouse", AreaMode.MANUAL)]) "Production" = AreaMode.AUTO := by
  constructor
  · exact c9_area_modes_no_validation.1 [("Warehouse", AreaMode.MANUAL)] none
  · exact c9_area_modes_no_validation.2 (some [("Warehouse", AreaMode.MANUAL)])
      "Production" (by intro m hm; cases hm; decide)

/-- C10: for every token, the per-token lookup of `getEffectiveStatus` is
the head of the filtered mapping list — the earliest active matching row
in table order — so duplicate active `system_status_value` rows are
resolved in favour of the first one in the table. -/
theorem c10_duplicate_active_first_in_table (mappings : List StatusMapping) (s : String) :
    getEffectiveStatus s mappings
      = (splitTokens s).foldl
          (fun best token =>
            match (mappings.filter fun m =>
                m.system_status_value == token && m.is_active).head?, best with
            | some m, none => some m
            | some m, some b => if m.sort_order > b.sort_order then some m else some b
            | none, acc => acc)
          none
    ∧ ∀ t, findActive mappings t
        = (mappings.filter fun m => m.system_status_value == t && m.is_active).head? := by
  constructor
  · unfold getEffectiveStatus
    apply foldl_congr_fun
    intro best token
    rw [findActive_eq_head_filter]
  · intro t
    exact findActive_eq_head_filter mappings t

/-- C10 witness: with two active `GMPS` rows, the earlier row in the table
wins the per-token lookup even though the later one has a higher
`sort_order`. -/
theorem c10_duplicate_active_first_in_table_witness :
    findActive exDupMappings "GMPS"
      = (exDupMappings.filter fun m =>
          m.system_status_value == "GMPS" && m.is_active).head?
    ∧ getEffectiveStatus "GMPS" exDupMappings = some exDupA := by
  exact ⟨(c10_duplicate_active_first_in_table exDupMappings "GMPS").2 "GMPS", by decide⟩

end OrderFlow
